import Mathlib

/-!
Verification development for the DNS message decoder in src/dns.c
(mercury).  The decoder is shallowly embedded: packet memory is a total
byte function (`Nat → Nat`, values taken mod 256, matching reads of
adjacent memory the C code can perform), cursor positions are byte
offsets from the DNS header base, and the C `ssize_t` remaining-length
counters are `Int`.  The recursive name decoder is embedded with an
explicit fuel parameter; a proved bound (`nameGo_total`) shows the fuel
chosen by the wrappers always suffices, which is exactly the termination
argument for the C loop/recursion structure.
-/

/-- 2^32, the modulus of the C `unsigned int` type. -/
def M32 : Nat := 4294967296

/-- `enum dns_err` from dns.c. -/
inductive DnsErr where
  | dns_ok
  | dns_err
  | dns_err_label_too_long
  | dns_err_offset_too_long
  | dns_err_malformed
  | dns_err_label_malformed
  | dns_err_bad_rdlength
  | dns_err_unprintable
  | dns_err_too_many
  | dns_err_unterminated
  | dns_err_rdata_too_long
  deriving DecidableEq, Repr

open DnsErr

/-- Fetch one byte of memory (the C code reads through `char` pointers;
values are reduced mod 256). -/
def byteAt (mem : Nat → Nat) (i : Nat) : Nat := mem i % 256

/-- Value of a byte read through a signed `char` (x86: signed, sign
extended on promotion to `int`). -/
def scval (b : Nat) : Int := if b < 128 then (b : Int) else (b : Int) - 256

/-- Macro `char_is_label(c)`: `((c) & 0xC0) == 0`. -/
def char_is_label (b : Nat) : Bool := b &&& 192 == 0

/-- Macro `char_is_offset(c)`: `((c) & 0xC0) == 0xC0`. -/
def char_is_offset (b : Nat) : Bool := b &&& 192 == 192

/-- `isprint`-based sanitization from `printable` in dns.c: printable
ASCII (0x20..0x7E) is kept, everything else becomes the byte of the
star character.  Bytes 128..255 read through signed `char` are negative
and not printable. -/
def printable (b : Nat) : Nat := if 32 ≤ b ∧ b ≤ 126 then b else 42

/-- `ntohs` of a 16-bit field stored at offset `p` (network byte order:
high byte first). -/
def be16 (mem : Nat → Nat) (p : Nat) : Nat := byteAt mem p * 256 + byteAt mem (p + 1)

/-- `ntohl` of a 32-bit field stored at offset `p`. -/
def be32 (mem : Nat → Nat) (p : Nat) : Nat :=
  byteAt mem p * 16777216 + byteAt mem (p + 1) * 65536 +
    byteAt mem (p + 2) * 256 + byteAt mem (p + 3)

/-- `DNS_OUTNAME_LEN` from dns.c. -/
def DNS_OUTNAME_LEN : Nat := 256

/-- `DNS_MAX_RECURSION_DEPTH` from dns.c. -/
def DNS_MAX_RECURSION_DEPTH : Nat := 20

/-- Result of `dns_header_parse_name` / `dns_header_parse_mxname`:
the error code, the final values of the by-reference cursor `*name`
and remaining length `*len`, the ordered list of writes made to the
output buffer (absolute offset into the buffer, byte value), and the
number of compression-pointer jumps taken (instrumentation used to
state the depth bound). -/
structure NameRes where
  err    : DnsErr
  npos   : Nat
  len    : Int
  writes : List (Nat × Nat)
  jumps  : Nat
  deriving DecidableEq, Repr

/-- Control state for the fueled embedding of the two name decoders.
`enter` is a fresh invocation (the function prologue: robustness check,
`outname[1] = 0`, snapshot of `offsetlen`); `step` is one iteration of
the `while` loop, carrying the local variables `c` (`cpos`), `*name`
(`npos`), `*len` (`len`), the output cursor (`outPos`), the
`outname_len` local (`outLen`, a C `unsigned int`), the loop-invariant
`terminus` (`term`), the recursion depth, the `offsetlen` entry
snapshot (`off0`) and the `processed_preference` flag (`pp`, always
irrelevant for the plain variant). -/
inductive NmK where
  | enter (npos : Nat) (len : Int) (outStart outLen depth : Nat)
  | step (cpos npos : Nat) (len : Int) (outPos outLen term depth : Nat)
      (off0 : Int) (pp : Bool)
  deriving DecidableEq, Repr

/-- Fuel bound for `nameGo` (proved sufficient in `nameGo_total`). -/
def nmF : NmK → Nat
  | NmK.enter _ _ _ L d => (21 - min d 20) * (L % M32 + 7)
  | NmK.step _ _ len oP oL term d _ _ =>
      if len ≤ 0 ∨ term ≤ oP then 1
      else (term - oP) + (if d < 20 then (20 - d) * (oL + 7) else 0) + 5

/-- Fueled embedding of `dns_header_parse_name` (if `mx = false`) and
`dns_header_parse_mxname` (if `mx = true`) from dns.c.  Returns `none`
exactly when the fuel runs out (never, for the bound `nmF`).  The
pointer branch reads the 16-bit offset through `*name`
(`uint16_parse(&offset, name, len)`), which in the mx variant is two
bytes behind `c` once the preference skip has happened, exactly as in
the source. -/
def nameGo (mx : Bool) (mem : Nat → Nat) : Nat → NmK → Option NameRes
  | 0, _ => none
  | fuel + 1, NmK.enter npos len outStart outLen depth =>
      let outLen := outLen % M32
      if len ≤ 0 ∨ outStart > outStart + outLen ∨ outLen < 2 then
        some ⟨dns_err_unterminated, npos, len, [], 0⟩
      else
        (nameGo mx mem fuel
            (NmK.step npos npos len outStart outLen (outStart + outLen) depth
              ((npos : Int) + len) false)).map
          fun r => { r with writes := (outStart + 1, 0) :: r.writes }
  | fuel + 1, NmK.step cpos npos len outPos outLen term depth off0 pp =>
      if len > 0 ∧ outPos < term then
        let b := byteAt mem cpos
        if char_is_label b then
          -- mx variant: first 2 bytes of the MX rdata are the preference
          let cpos := if mx ∧ ¬pp then cpos + 2 else cpos
          let len := if mx ∧ ¬pp then len - 2 else len
          let pp := if mx then true else pp
          let b := byteAt mem cpos
          if scval b < 64 ∧ len > scval b then
            if b = 0 then
              some ⟨dns_ok, cpos + 1, len, [(outPos, 0)], 0⟩
            else
              let jump : Nat := ((scval b + 1) % 256).toNat
              let chars := (List.range (jump - 1)).map
                (fun i => (outPos + 1 + i, printable (byteAt mem (cpos + 1 + i))))
              (nameGo mx mem fuel
                  (NmK.step (cpos + jump) (npos + jump) (len - jump)
                    (outPos + 1 + (jump - 1)) ((outLen + M32 - jump) % M32)
                    term depth off0 pp)).map
                fun r => { r with writes := (outPos, 46) :: chars ++ r.writes }
          else
            some ⟨dns_err_label_too_long, npos, len, [], 0⟩
        else if char_is_offset b then
          if len < 2 then
            some ⟨dns_err_offset_too_long, npos, len, [], 0⟩
          else
            let off := be16 mem npos
            let npos := npos + 2
            let len := len - 2
            let tgt := off % 16384
            let offlen := off0 - tgt
            if depth ≥ DNS_MAX_RECURSION_DEPTH then
              some ⟨dns_err_offset_too_long, npos, len, [], 0⟩
            else
              (nameGo mx mem fuel (NmK.enter tgt offlen outPos outLen (depth + 1))).map
                fun r => ⟨r.err, npos, len, r.writes, r.jumps + 1⟩
        else
          some ⟨dns_err_label_malformed, npos, len, [], 0⟩
      else
        some ⟨dns_err_unterminated, npos, len, [], 0⟩

/-- `dns_header_parse_name` from dns.c (plain variant), with the fuel
instantiated at its proved-sufficient bound. -/
def dns_header_parse_name (mem : Nat → Nat) (npos : Nat) (len : Int)
    (outStart outLen depth : Nat) : NameRes :=
  (nameGo false mem (nmF (NmK.enter npos len outStart outLen depth) + 1)
      (NmK.enter npos len outStart outLen depth)).getD
    ⟨dns_err, npos, len, [], 0⟩

/-- `dns_header_parse_mxname` from dns.c (MX preference variant). -/
def dns_header_parse_mxname (mem : Nat → Nat) (npos : Nat) (len : Int)
    (outStart outLen depth : Nat) : NameRes :=
  (nameGo true mem (nmF (NmK.enter npos len outStart outLen depth) + 1)
      (NmK.enter npos len outStart outLen depth)).getD
    ⟨dns_err, npos, len, [], 0⟩

/-- Invariant carried by loop states of `nameGo`: the `outname_len`
local always dominates the distance to `terminus`, and is a 32-bit
value. -/
def nmInv : NmK → Prop
  | NmK.enter _ _ _ _ _ => True
  | NmK.step _ _ _ oP oL term _ _ _ => term - oP ≤ oL ∧ oL < M32

/-- Recursion depth recorded in a control state. -/
def nmDepth : NmK → Nat
  | NmK.enter _ _ _ _ d => d
  | NmK.step _ _ _ _ _ _ d _ _ => d

/-- `data_advance` from dns.c.  `tlen` is the C conversion of the
`ssize_t` length to `unsigned int` (mod 2^32), reproducing the signed
to unsigned truncation of the source. -/
def data_advance (pos : Nat) (len : Int) (size : Nat) : DnsErr × Nat × Int :=
  let tlen : Nat := (len % (M32 : Int)).toNat
  if tlen < size then (dns_err_malformed, pos, len)
  else (dns_ok, pos + size, len - size)

/-- Result of `dns_question_parse`. -/
structure QRes where
  err : DnsErr
  pos : Nat
  len : Int
  qtype : Nat
  qclass : Nat
  deriving DecidableEq, Repr

/-- `dns_question_parse` from dns.c (`sizeof(dns_question) = 4`). -/
def dns_question_parse (mem : Nat → Nat) (pos : Nat) (len : Int) : QRes :=
  if len < 4 then ⟨dns_err_malformed, pos, len, 0, 0⟩
  else ⟨dns_ok, pos + 4, len - 4, be16 mem pos, be16 mem (pos + 2)⟩

/-- The fixed fields of a resource record header (`struct dns_rr`,
packed, 10 bytes): type, class, ttl, rdlength, each in network byte
order. -/
structure RrParsed where
  rtype : Nat
  rclass : Nat
  ttl : Nat
  rdlen : Nat
  deriving DecidableEq, Repr

/-- Result of `dns_rr_parse`: error, the record header view, the
advanced cursor and length, and the `*rdlength` out-parameter (left at
its prior value `rdl0` on failure, as in the source). -/
structure RrRes where
  err : DnsErr
  rr : RrParsed
  pos : Nat
  len : Int
  rdlength : Int
  deriving DecidableEq, Repr

/-- `dns_rr_parse` from dns.c.  Note the source compares `*len` to
`ntohs((*r)->rdlength)` while `*len` still includes the 10 bytes of
the fixed record header, and only afterwards subtracts
`sizeof(dns_rr)`. -/
def dns_rr_parse (mem : Nat → Nat) (pos : Nat) (len : Int) (rdl0 : Int) : RrRes :=
  if len < 10 then ⟨dns_err_malformed, ⟨0, 0, 0, 0⟩, pos, len, rdl0⟩
  else
    let rr : RrParsed := ⟨be16 mem pos, be16 mem (pos + 2), be32 mem (pos + 4), be16 mem (pos + 8)⟩
    if len < (rr.rdlen : Int) then ⟨dns_err_rdata_too_long, rr, pos, len, rdl0⟩
    else ⟨dns_ok, rr, pos + 10, len - 10, (rr.rdlen : Int)⟩

/-- `dns_addr_parse` from dns.c (`sizeof(struct in_addr) = 4`). -/
def dns_addr_parse (pos : Nat) (len : Int) (rdlength : Nat) : DnsErr × Nat × Int :=
  if len < 4 then (dns_err_malformed, pos, len)
  else if rdlength ≠ 4 then (dns_err_bad_rdlength, pos, len)
  else (dns_ok, pos + 4, len - 4)

/-- `dns_ipv6_addr_parse` from dns.c (`sizeof(struct in6_addr) = 16`). -/
def dns_ipv6_addr_parse (pos : Nat) (len : Int) (rdlength : Nat) : DnsErr × Nat × Int :=
  if len < 16 then (dns_err_malformed, pos, len)
  else if rdlength ≠ 16 then (dns_err_bad_rdlength, pos, len)
  else (dns_ok, pos + 16, len - 16)

/-- Replay the ordered write list of a name decode into the 256-byte
`name` output buffer.  Writes at offsets past the buffer end are
dropped here (in C they corrupt adjacent stack memory instead).  The
buffer is taken zero-initialised; a successful decode writes a
contiguous NUL-terminated span starting at offset 0, so the rendered
C string is independent of the prior buffer contents, which is why the
uninitialised local buffer in `dns_rdata_print` and the shared,
once-memset buffer in `dns_print_packet` both render identically. -/
def writeBuf (writes : List (Nat × Nat)) : List Nat :=
  writes.foldl (fun a pv => a.set pv.1 pv.2) (List.replicate DNS_OUTNAME_LEN 0)

/-- Rendering of `name + 1` as a C string (`%s`): the bytes from
offset 1 up to the first NUL. -/
def renderName (writes : List (Nat × Nat)) : String :=
  String.mk ((((writeBuf writes).drop 1).takeWhile (fun b => b ≠ 0)).map Char.ofNat)

/-- Lowercase hexadecimal digit. -/
def hexDigit (n : Nat) : Char := Char.ofNat (if n < 10 then 48 + n else 87 + n)

/-- `%x` rendering of a 16-bit value (no leading zeros; `0` for zero). -/
def hexStr16 (n : Nat) : String :=
  let ds := [n / 4096 % 16, n / 256 % 16, n / 16 % 16, n % 16]
  let ds2 := ds.dropWhile (fun d => d = 0)
  String.mk ((if ds2.isEmpty then [0] else ds2).map hexDigit)

/-- `inet_ntop(AF_INET, ...)` dotted-quad rendering of the 4 bytes at
`pos` (libc, outside this repository). -/
def ipv4_str (mem : Nat → Nat) (pos : Nat) : String :=
  toString (byteAt mem pos) ++ "." ++ toString (byteAt mem (pos + 1)) ++ "." ++
    toString (byteAt mem (pos + 2)) ++ "." ++ toString (byteAt mem (pos + 3))

/-- Modelled from the spec: `inet_ntop(AF_INET6, ...)` (libc, outside
this repository; the spec only says the 16 bytes are emitted as the
canonical IPv6 string).  Modelled as 8 colon-separated hex groups; no
claim depends on the exact rendering. -/
def ipv6_str (mem : Nat → Nat) (pos : Nat) : String :=
  String.intercalate ":" ((List.range 8).map (fun g => hexStr16 (be16 mem (pos + 2 * g))))

/-- Result of `dns_rdata_print`: error, final `*r` and `*len` (the
latter is the rdlength variable of the caller), and the text fragment
appended to the buffer stream. -/
structure RdRes where
  err : DnsErr
  pos : Nat
  len : Int
  frag : String
  deriving DecidableEq, Repr

/-- `dns_rdata_print` from dns.c.  `len` is the caller's `rdlength`
variable (passed by reference as `*len` in the source). -/
def dns_rdata_print (mem : Nat → Nat) (rr : RrParsed) (pos : Nat) (len : Int) : RdRes :=
  let rclass := rr.rclass
  let rtype := rr.rtype
  if rclass = 1 then
    if rtype = 1 then
      let a := dns_addr_parse pos len rr.rdlen
      if a.1 ≠ dns_ok then ⟨a.1, a.2.1, a.2.2, ""⟩
      else ⟨dns_ok, a.2.1, a.2.2, "\x22a\x22:\x22" ++ ipv4_str mem pos ++ "\x22"⟩
    else if rtype = 28 then
      let a := dns_ipv6_addr_parse pos len rr.rdlen
      if a.1 ≠ dns_ok then ⟨a.1, a.2.1, a.2.2, ""⟩
      else ⟨dns_ok, a.2.1, a.2.2, "\x22aaaa\x22:\x22" ++ ipv6_str mem pos ++ "\x22"⟩
    else if rtype = 6 ∨ rtype = 12 ∨ rtype = 5 ∨ rtype = 2 ∨ rtype = 15 then
      let nres :=
        if rtype = 15 then dns_header_parse_mxname mem pos len 0 (DNS_OUTNAME_LEN - 1) 0
        else dns_header_parse_name mem pos len 0 (DNS_OUTNAME_LEN - 1) 0
      if nres.err ≠ dns_ok then ⟨nres.err, nres.npos, nres.len, ""⟩
      else
        let tname := if rtype = 6 then "soa" else if rtype = 12 then "ptr"
          else if rtype = 2 then "ns" else if rtype = 15 then "mx" else "cname"
        let frag := "\x22" ++ tname ++ "\x22:\x22" ++ renderName nres.writes ++ "\x22"
        if nres.len - 1 > 0 then
          let a := data_advance nres.npos nres.len ((nres.len - 1) % (M32 : Int)).toNat
          if a.1 ≠ dns_ok then ⟨a.1, a.2.1, a.2.2, frag⟩
          else ⟨dns_ok, a.2.1, a.2.2, frag⟩
        else ⟨dns_ok, nres.npos, nres.len, frag⟩
    else if rtype = 16 then
      ⟨dns_ok, pos, len, "\x22txt\x22:\x22NYI\x22"⟩
    else
      let a := data_advance pos len rr.rdlen
      if a.1 ≠ dns_ok then ⟨a.1, a.2.1, a.2.2, ""⟩
      else ⟨dns_ok, a.2.1, a.2.2,
        "\x22type\x22:\x22" ++ hexStr16 rtype ++ "\x22,\x22class\x22:\x22" ++
          hexStr16 rclass ++ "\x22,\x22rdlength\x22:" ++ toString rr.rdlen⟩
  else
    let a := data_advance pos len rr.rdlen
    if a.1 ≠ dns_ok then ⟨a.1, a.2.1, a.2.2, ""⟩
    else ⟨dns_ok, a.2.1, a.2.2,
      "\x22type\x22:\x22" ++ hexStr16 rtype ++ "\x22,\x22class\x22:\x22" ++
        hexStr16 rclass ++ "\x22,\x22rdlength\x22:" ++ toString rr.rdlen⟩

/-- Result of dispatching one record payload plus the caller's cursor
fixup in `dns_print_packet` (the lines `len -= rdlength; if (rdlength
> 1) { r += (rdlength - 1); rdlength = 1; }`). -/
structure AdvRes where
  err : DnsErr
  pos : Nat
  len : Int
  rdl : Int
  frag : String
  deriving DecidableEq, Repr

/-- Payload dispatch for one record followed by the record-loop cursor
fixup of `dns_print_packet`.  `lenMsg` is the message-level remaining
length, `rdl` the `rdlength` value returned by `dns_rr_parse`. -/
def rdata_dispatch_advance (mem : Nat → Nat) (rr : RrParsed) (pos : Nat)
    (lenMsg rdl : Int) : AdvRes :=
  let dres := dns_rdata_print mem rr pos rdl
  if dres.err ≠ dns_ok then ⟨dres.err, dres.pos, lenMsg, dres.len, dres.frag⟩
  else
    let pos := dres.pos
    let rdl := dres.len
    let lenMsg := lenMsg - rdl
    if rdl > 1 then ⟨dns_ok, pos + (rdl - 1).toNat, lenMsg, 1, dres.frag⟩
    else ⟨dns_ok, pos, lenMsg, rdl, dres.frag⟩

/-- Driver state threaded through the record loops of
`dns_print_packet`: cursor, message length, the `rdlength` local, the
`comma` counter and the accumulated output text. -/
structure DrvSt where
  pos : Nat
  len : Int
  rdl : Int
  comma : Nat
  out : String
  deriving DecidableEq, Repr

/-- One iteration of a record loop of `dns_print_packet` (the bodies
of the answer, authority and additional loops are identical in the
source).  `Sum.inl` is an early `return` with the final output. -/
def dns_rr_record_step (mem : Nat → Nat) (st : DrvSt) : Sum String DrvSt :=
  let out := st.out ++ (if st.comma ≠ 0 then "," else "") ++ "\x7b"
  let comma := st.comma + 1
  let nres := dns_header_parse_name mem st.pos st.len 0 (DNS_OUTNAME_LEN - 1) 0
  if nres.err ≠ dns_ok then Sum.inl (out ++ "\x22malformed\x22:" ++ toString nres.len)
  else
    let rres := dns_rr_parse mem nres.npos nres.len st.rdl
    if rres.err ≠ dns_ok then Sum.inl (out ++ "\x22malformed\x22:" ++ toString rres.len)
    else
      let adv := rdata_dispatch_advance mem rres.rr rres.pos rres.len rres.rdlength
      let out := out ++ adv.frag
      if adv.err ≠ dns_ok then
        Sum.inl (out ++ "\x22malformed\x22:" ++ toString adv.len ++ "\x7d]\x7d")
      else
        Sum.inr ⟨adv.pos, adv.len, adv.rdl, comma,
          out ++ ",\x22ttl\x22:" ++ toString rres.rr.ttl ++ "\x7d"⟩

/-- One record-loop section of `dns_print_packet`, iterated `count`
times. -/
def dns_rr_section (mem : Nat → Nat) : Nat → DrvSt → Sum String DrvSt
  | 0, st => Sum.inr st
  | n + 1, st =>
      match dns_rr_record_step mem st with
      | Sum.inl s => Sum.inl s
      | Sum.inr st2 => dns_rr_section mem n st2

/-- Cursor fixup between two record sections in `dns_print_packet`
(`if (rdlength > 1) { r += (rdlength - 1); }`, with no reset of
`rdlength` and no length adjustment). -/
def section_gap (st : DrvSt) : DrvSt :=
  if st.rdl > 1 then { st with pos := st.pos + (st.rdl - 1).toNat } else st

/-- The question loop of `dns_print_packet`. -/
def dns_question_loop (mem : Nat → Nat) (qr : String) :
    Nat → Nat → Int → String → Sum String (Nat × Int × String)
  | 0, pos, len, out => Sum.inr (pos, len, out)
  | n + 1, pos, len, out =>
      let nres := dns_header_parse_name mem pos len 0 (DNS_OUTNAME_LEN - 1) 0
      if nres.err ≠ dns_ok then Sum.inl (out ++ "\x22malformed\x22:" ++ toString nres.len)
      else
        let q := dns_question_parse mem nres.npos nres.len
        if q.err ≠ dns_ok then Sum.inl (out ++ "\x22malformed\x22:" ++ toString q.len)
        else
          dns_question_loop mem qr n q.pos q.len
            (out ++ "\x22" ++ qr ++ "n\x22:\x22" ++ renderName nres.writes ++ "\x22,")

/-- `dns_print_packet` from dns.c: the message driver.  `mem` is the
packet (and surrounding) memory, `pkt_len` the declared packet
length. -/
def dns_print_packet (mem : Nat → Nat) (pkt_len : Int) : String :=
  let out := "\x7b"
  if pkt_len < 12 then out ++ "\x22malformed\x22:" ++ toString pkt_len
  else
    let flags := be16 mem 2
    let flags_rcode := flags &&& 15
    let flags_qr := flags >>> 15
    let qr := if flags_qr = 0 then "q" else "r"
    let len := pkt_len - 12
    let pos := 12
    let qdcount := be16 mem 4
    if qdcount > 1 then out ++ "\x22malformed\x22:" ++ toString len
    else
      match dns_question_loop mem qr qdcount pos len out with
      | Sum.inl s => s
      | Sum.inr (pos, len, out) =>
        let out := out ++ "\x22rc\x22:" ++ toString flags_rcode ++ ",\x22rr\x22:["
        match dns_rr_section mem (be16 mem 6) ⟨pos, len, 0, 0, out⟩ with
        | Sum.inl s => s
        | Sum.inr st =>
          match dns_rr_section mem (be16 mem 8) (section_gap st) with
          | Sum.inl s => s
          | Sum.inr st =>
            match dns_rr_section mem (be16 mem 10) (section_gap st) with
            | Sum.inl s => s
            | Sum.inr st => st.out ++ "]\x7d"

/-- Remaining-length value carried by a control state of `nameGo`. -/
def nmLen : NmK → Int
  | NmK.enter _ l _ _ _ => l
  | NmK.step _ _ l _ _ _ _ _ _ => l

/-- A necessary condition for syntactic well-formedness of the emitted
text: braces and brackets outside of string literals are properly
nested and closed, and every string literal is closed. -/
def jsonBalanced (s : String) : Bool :=
  let f : (Bool × Option (List Nat)) → Char → (Bool × Option (List Nat)) := fun st c =>
    match st with
    | (inStr, none) => (inStr, none)
    | (true, some stk) => (decide (c.toNat ≠ 34), some stk)
    | (false, some stk) =>
        if c.toNat = 34 then (true, some stk)
        else if c.toNat = 123 then (false, some (123 :: stk))
        else if c.toNat = 91 then (false, some (91 :: stk))
        else if c.toNat = 125 then
          match stk with
          | 123 :: rest => (false, some rest)
          | _ => (false, none)
        else if c.toNat = 93 then
          match stk with
          | 91 :: rest => (false, some rest)
          | _ => (false, none)
        else (false, some stk)
  match s.data.foldl f (false, some []) with
  | (false, some []) => true
  | _ => false

/-- Concrete packet memory: a name of five labels of lengths 63, 63,
63, 61, 63 (label bytes at offsets 0, 64, 128, 192, 254, filler
character elsewhere), with no terminator in the first 400 bytes. -/
def memOvf : Nat → Nat := fun i =>
  if i = 0 ∨ i = 64 ∨ i = 128 then 63 else if i = 192 then 61
  else if i = 254 then 63 else 97

/-- Concrete packet memory: every byte is `0xC0`, so every name is a
compression pointer to offset 192 and pointer chasing cycles. -/
def memCyc : Nat → Nat := fun _ => 192

/-- Concrete packet memory: a chain of 20 compression pointers at
offsets 0, 2, ..., 38 (each pointing at the next), ending in the
well-formed name consisting of the single label of length 1 at offset
40. -/
def memChain : Nat → Nat := fun i =>
  if i < 40 then (if i % 2 = 0 then 192 else i + 1)
  else if i = 40 then 1 else if i = 41 then 97 else 0

/-- Concrete MX rdata at offset 0: preference bytes `00 0A`, then a
compression pointer `C0 0C` to offset 12, where the well-formed name
consisting of the label of the single character at offset 13 is
stored. -/
def memMxPtr : Nat → Nat := fun i =>
  if i = 0 then 0 else if i = 1 then 10 else if i = 2 then 192 else if i = 3 then 12
  else if i = 12 then 1 else if i = 13 then 97 else 0

/-- Concrete MX rdata at offset 0: the 2-byte preference field itself
is `C0 0C` (preference value 49164), followed by nothing; offset 12
holds the well-formed name of one single-character label. -/
def memMxPref : Nat → Nat := fun i =>
  if i = 0 then 192 else if i = 1 then 12
  else if i = 12 then 1 else if i = 13 then 97 else 0

/-- Concrete memory holding a label of length 63 followed by 63
characters and a terminating null label. -/
def memLabel63 : Nat → Nat := fun i =>
  if i = 0 then 63 else if i ≤ 63 then 97 else 0

/-- Concrete memory whose first byte is 64 (wire tag bits `01`). -/
def memLabel64 : Nat → Nat := fun _ => 64

/-- Concrete 12-byte record-header memory with rdlength field (at
offsets 8-9) declaring 11 bytes. -/
def memRr11 : Nat → Nat := fun i => if i = 9 then 11 else 0

/-- Concrete 12-byte record-header memory with rdlength field
declaring 13 bytes. -/
def memRr13 : Nat → Nat := fun i => if i = 9 then 13 else 0

/-- All-zero memory. -/
def memZero : Nat → Nat := fun _ => 0

/-- Helper for `nameGo_total`: the label-branch loop continuation
preserves the invariant and strictly decreases the fuel bound. -/
theorem nameGo_label_aux (mx : Bool) (mem : Nat → Nat) (fuel : Nat)
    (ih : ∀ k, nmInv k → nmF k < fuel → (nameGo mx mem fuel k).isSome)
    (c' n : Nat) (l' : Int) (oP oL term d : Nat) (o0 : Int) (pp' : Bool)
    (jump : Nat) (hj : jump ≤ 255)
    (hi1 : term - oP ≤ oL) (hi2 : oL < M32) (hoP : oP < term)
    (hfuel : (term - oP) + (if d < 20 then (20 - d) * (oL + 7) else 0) + 5 ≤ fuel) :
    (nameGo mx mem fuel (NmK.step (c' + jump) (n + jump) (l' - jump)
      (oP + 1 + (jump - 1)) ((oL + M32 - jump) % M32) term d o0 pp')).isSome := by
  set oL' := (oL + M32 - jump) % M32 with hoL'
  have hM : (0:Nat) < M32 := by decide
  have hoL'lt : oL' < M32 := Nat.mod_lt _ hM
  have hwrap : jump ≤ oL → oL' = oL - jump := by
    intro hle
    rw [hoL']
    have h1 : oL + M32 - jump = (oL - jump) + M32 := by omega
    rw [h1, Nat.add_mod_right]
    exact Nat.mod_eq_of_lt (by omega)
  apply ih
  · refine ⟨?_, hoL'lt⟩
    rcases le_or_lt jump oL with hle | hgt
    · rw [hwrap hle]; omega
    · simp only [M32] at hoL' ⊢; omega
  · by_cases hend : l' - jump ≤ 0 ∨ term ≤ oP + 1 + (jump - 1)
    · have h1 : nmF (NmK.step (c' + jump) (n + jump) (l' - jump)
          (oP + 1 + (jump - 1)) oL' term d o0 pp') = 1 := by
        simp only [nmF]
        rw [if_pos hend]
      omega
    · push_neg at hend
      have hOP' : oP + 1 + (jump - 1) < term := hend.2
      have hjle : jump ≤ oL := by omega
      have h1 : nmF (NmK.step (c' + jump) (n + jump) (l' - jump)
          (oP + 1 + (jump - 1)) oL' term d o0 pp') =
          (term - (oP + 1 + (jump - 1))) +
            (if d < 20 then (20 - d) * (oL' + 7) else 0) + 5 := by
        simp only [nmF]
        rw [if_neg (by push_neg; omega)]
      rw [h1, hwrap hjle]
      have hmono : (if d < 20 then (20 - d) * (oL - jump + 7) else 0) ≤
          (if d < 20 then (20 - d) * (oL + 7) else 0) := by
        split
        · exact Nat.mul_le_mul_left _ (by omega)
        · exact le_refl _
      omega

/-- The chosen fuel bound `nmF` is sufficient: `nameGo` never runs out
of fuel.  This is the termination argument for the C name decoders:
the loop strictly advances the output cursor towards `terminus` and
the pointer recursion is bounded by `DNS_MAX_RECURSION_DEPTH`. -/
theorem nameGo_total (mx : Bool) (mem : Nat → Nat) :
    ∀ fuel k, nmInv k → nmF k < fuel → (nameGo mx mem fuel k).isSome := by
  intro fuel
  induction fuel with
  | zero => intro k _ h; exact absurd h (Nat.not_lt_zero _)
  | succ fuel ih =>
    intro k hinv hf
    cases k with
    | enter n l s L d =>
      simp only [nameGo]
      split
      · simp
      · rename_i hc
        rw [Option.isSome_map']
        set L' := L % M32 with hL'
        have hL'lt : L' < M32 := Nat.mod_lt _ (by decide)
        have hc' : ¬(l ≤ 0 ∨ s > s + L' ∨ L' < 2) := hc
        push_neg at hc'
        apply ih
        · exact ⟨by omega, hL'lt⟩
        · have hstep : nmF (NmK.step n n l s L' (s + L') d ((n : Int) + l) false) =
              L' + (if d < 20 then (20 - d) * (L' + 7) else 0) + 5 := by
            simp only [nmF]
            rw [if_neg (by push_neg; constructor <;> omega)]
            congr 1
            omega
          have henter : nmF (NmK.enter n l s L d) = (21 - min d 20) * (L' + 7) := rfl
          rw [hstep]
          rw [henter] at hf
          rcases Nat.lt_or_ge d 20 with hd | hd
          · have hmin : min d 20 = d := by omega
            rw [hmin] at hf
            have hsplit : (21 - d) * (L' + 7) = (20 - d) * (L' + 7) + (L' + 7) := by
              have h21 : 21 - d = (20 - d) + 1 := by omega
              rw [h21, Nat.succ_mul]
            rw [hsplit] at hf
            rw [if_pos hd]
            omega
          · have hmin : min d 20 = 20 := by omega
            rw [hmin] at hf
            rw [if_neg (by omega)]
            omega
    | step c n l oP oL term d o0 pp =>
      obtain ⟨hi1, hi2⟩ := hinv
      have hstepF : ∀ (hl : l > 0) (hoP : oP < term),
          nmF (NmK.step c n l oP oL term d o0 pp) =
          (term - oP) + (if d < 20 then (20 - d) * (oL + 7) else 0) + 5 := by
        intro hl hoP
        simp only [nmF]
        rw [if_neg (by push_neg; omega)]
      simp only [nameGo]
      split
      · rename_i hcond
        obtain ⟨hl, hoP⟩ := hcond
        have hf' := hstepF hl hoP
        rw [hf'] at hf
        split
        · -- label branch: split further on the mx preference skip
          split
          · -- skip taken
            split
            · split
              · simp
              · rw [Option.isSome_map']
                refine nameGo_label_aux mx mem fuel ih _ _ _ _ _ _ _ _ _ _ ?_ hi1 hi2 hoP (by omega)
                have h1 : (0:Int) ≤ (scval (byteAt mem (c + 2)) + 1) % 256 :=
                  Int.emod_nonneg _ (by norm_num)
                have h2 : (scval (byteAt mem (c + 2)) + 1) % 256 < 256 :=
                  Int.emod_lt_of_pos _ (by norm_num)
                omega
            · simp
          · -- skip not taken
            split
            · split
              · simp
              · rw [Option.isSome_map']
                refine nameGo_label_aux mx mem fuel ih _ _ _ _ _ _ _ _ _ _ ?_ hi1 hi2 hoP (by omega)
                have h1 : (0:Int) ≤ (scval (byteAt mem c) + 1) % 256 :=
                  Int.emod_nonneg _ (by norm_num)
                have h2 : (scval (byteAt mem c) + 1) % 256 < 256 :=
                  Int.emod_lt_of_pos _ (by norm_num)
                omega
            · simp
        · split
          · -- offset branch
            split
            · simp
            · split
              · simp
              · rw [Option.isSome_map']
                rename_i hlen2 hdep
                apply ih
                · trivial
                · have hd20 : d < 20 := by
                    simp only [DNS_MAX_RECURSION_DEPTH] at hdep
                    omega
                  have h2 : nmF (NmK.enter (be16 mem n % 16384)
                      (o0 - ((be16 mem n % 16384 : Nat) : Int)) oP oL (d + 1)) =
                      (20 - d) * (oL + 7) := by
                    simp only [nmF]
                    rw [Nat.mod_eq_of_lt hi2]
                    have hm : min (d + 1) 20 = d + 1 := by omega
                    rw [hm]
                    have hs : 21 - (d + 1) = 20 - d := by omega
                    rw [hs]
                  rw [h2]
                  rw [if_pos hd20] at hf
                  omega
          · simp
      · simp

/-- The number of compression-pointer jumps taken by a decode is
bounded: starting at recursion depth `d`, at most `20 - min d 20`
jumps can occur (`DNS_MAX_RECURSION_DEPTH = 20`). -/
theorem nameGo_jumps (mx : Bool) (mem : Nat → Nat) :
    ∀ fuel k r, nameGo mx mem fuel k = some r →
      r.jumps + min (nmDepth k) 20 ≤ 20 := by
  intro fuel
  induction fuel with
  | zero => intro k r h; simp [nameGo] at h
  | succ fuel ih =>
    intro k r h
    cases k with
    | enter n l s L d =>
      simp only [nameGo] at h
      split at h
      · simp only [Option.some_inj] at h
        subst h
        simp [nmDepth]
      · cases hgo : nameGo mx mem fuel
            (NmK.step n n l s (L % M32) (s + L % M32) d ((n : Int) + l) false) with
        | none => rw [hgo] at h; simp at h
        | some r' =>
          rw [hgo] at h
          simp only [Option.map_some', Option.some_inj] at h
          subst h
          have := ih _ _ hgo
          simpa [nmDepth] using this
    | step c n l oP oL term d o0 pp =>
      simp only [nameGo] at h
      split at h
      · split at h
        · -- label branch
          split at h <;>
          · split at h
            · split at h
              · simp only [Option.some_inj] at h
                subst h
                simp [nmDepth]
              · rename_i hrec
                generalize hst : NmK.step _ _ _ _ _ _ _ _ _ = k' at h
                cases hgo : nameGo mx mem fuel k' with
                | none => rw [hgo] at h; simp at h
                | some r' =>
                  rw [hgo] at h
                  simp only [Option.map_some', Option.some_inj] at h
                  subst h
                  have h2 := ih _ _ hgo
                  subst hst
                  simpa [nmDepth] using h2
            · simp only [Option.some_inj] at h
              subst h
              simp [nmDepth]
        · split at h
          · -- offset branch
            split at h
            · simp only [Option.some_inj] at h
              subst h
              simp [nmDepth]
            · split at h
              · simp only [Option.some_inj] at h
                subst h
                simp [nmDepth]
              · rename_i hdep
                cases hgo : nameGo mx mem fuel
                    (NmK.enter (be16 mem n % 16384)
                      (o0 - ((be16 mem n % 16384 : Nat) : Int)) oP oL (d + 1)) with
                | none => rw [hgo] at h; simp at h
                | some r' =>
                  rw [hgo] at h
                  simp only [Option.map_some', Option.some_inj] at h
                  subst h
                  have h2 := ih _ _ hgo
                  simp only [nmDepth] at h2 ⊢
                  simp only [DNS_MAX_RECURSION_DEPTH] at hdep
                  omega
          · simp only [Option.some_inj] at h
            subst h
            simp [nmDepth]
      · simp only [Option.some_inj] at h
        subst h
        simp [nmDepth]

/-- A name decode never increases the remaining-length counter it
returns (the counter only ever decreases, and the result of a
recursive pointer decode is discarded in favour of the calling
frame's counter). -/
theorem nameGo_len_le (mx : Bool) (mem : Nat → Nat) :
    ∀ fuel k r, nameGo mx mem fuel k = some r → r.len ≤ nmLen k := by
  intro fuel
  induction fuel with
  | zero => intro k r h; simp [nameGo] at h
  | succ fuel ih =>
    intro k r h
    cases k with
    | enter n l s L d =>
      simp only [nameGo] at h
      split at h
      · simp only [Option.some_inj] at h
        subst h
        simp [nmLen]
      · cases hgo : nameGo mx mem fuel
            (NmK.step n n l s (L % M32) (s + L % M32) d ((n : Int) + l) false) with
        | none => rw [hgo] at h; simp at h
        | some r2 =>
          rw [hgo] at h
          simp only [Option.map_some', Option.some_inj] at h
          subst h
          simpa [nmLen] using ih _ _ hgo
    | step c n l oP oL term d o0 pp =>
      simp only [nameGo] at h
      split at h
      · split at h
        · split at h <;>
          · split at h
            · split at h
              · simp only [Option.some_inj] at h
                subst h
                simp only [nmLen]
                omega
              · generalize hst : NmK.step _ _ _ _ _ _ _ _ _ = k2 at h
                cases hgo : nameGo mx mem fuel k2 with
                | none => rw [hgo] at h; simp at h
                | some r2 =>
                  rw [hgo] at h
                  simp only [Option.map_some', Option.some_inj] at h
                  subst h
                  have h2 := ih _ _ hgo
                  subst hst
                  simp only [nmLen] at h2 ⊢
                  omega
            · simp only [Option.some_inj] at h
              subst h
              simp only [nmLen]
              omega
        · split at h
          · split at h
            · simp only [Option.some_inj] at h
              subst h
              simp [nmLen]
            · split at h
              · simp only [Option.some_inj] at h
                subst h
                simp only [nmLen]
                omega
              · cases hgo : nameGo mx mem fuel
                    (NmK.enter (be16 mem n % 16384)
                      (o0 - ((be16 mem n % 16384 : Nat) : Int)) oP oL (d + 1)) with
                | none => rw [hgo] at h; simp at h
                | some r2 =>
                  rw [hgo] at h
                  simp only [Option.map_some', Option.some_inj] at h
                  subst h
                  simp only [nmLen]
                  omega
          · simp only [Option.some_inj] at h
            subst h
            simp [nmLen]
      · simp only [Option.some_inj] at h
        subst h
        simp [nmLen]

/-- The wrapper `dns_header_parse_name` agrees with a `some` result of
`nameGo` at the chosen fuel. -/
theorem dns_header_parse_name_eq (mem : Nat → Nat) (npos : Nat) (len : Int)
    (outStart outLen depth : Nat) :
    ∃ r, nameGo false mem (nmF (NmK.enter npos len outStart outLen depth) + 1)
        (NmK.enter npos len outStart outLen depth) = some r ∧
      dns_header_parse_name mem npos len outStart outLen depth = r := by
  have h := nameGo_total false mem (nmF (NmK.enter npos len outStart outLen depth) + 1)
    (NmK.enter npos len outStart outLen depth) trivial (Nat.lt_succ_self _)
  obtain ⟨r, hr⟩ := Option.isSome_iff_exists.mp h
  exact ⟨r, hr, by simp [dns_header_parse_name, hr]⟩

/-- The wrapper `dns_header_parse_mxname` agrees with a `some` result
of `nameGo` at the chosen fuel. -/
theorem dns_header_parse_mxname_eq (mem : Nat → Nat) (npos : Nat) (len : Int)
    (outStart outLen depth : Nat) :
    ∃ r, nameGo true mem (nmF (NmK.enter npos len outStart outLen depth) + 1)
        (NmK.enter npos len outStart outLen depth) = some r ∧
      dns_header_parse_mxname mem npos len outStart outLen depth = r := by
  have h := nameGo_total true mem (nmF (NmK.enter npos len outStart outLen depth) + 1)
    (NmK.enter npos len outStart outLen depth) trivial (Nat.lt_succ_self _)
  obtain ⟨r, hr⟩ := Option.isSome_iff_exists.mp h
  exact ⟨r, hr, by simp [dns_header_parse_mxname, hr]⟩

/-- The plain name decoder never increases the remaining length. -/
theorem dns_header_parse_name_len_le (mem : Nat → Nat) (npos : Nat) (len : Int)
    (outStart outLen depth : Nat) :
    (dns_header_parse_name mem npos len outStart outLen depth).len ≤ len := by
  obtain ⟨r, hr, he⟩ := dns_header_parse_name_eq mem npos len outStart outLen depth
  rw [he]
  simpa [nmLen] using nameGo_len_le false mem _ _ _ hr

/-- The MX name decoder never increases the remaining length. -/
theorem dns_header_parse_mxname_len_le (mem : Nat → Nat) (npos : Nat) (len : Int)
    (outStart outLen depth : Nat) :
    (dns_header_parse_mxname mem npos len outStart outLen depth).len ≤ len := by
  obtain ⟨r, hr, he⟩ := dns_header_parse_mxname_eq mem npos len outStart outLen depth
  rw [he]
  simpa [nmLen] using nameGo_len_le true mem _ _ _ hr

/-- Every early return of the question loop carries the malformed
marker in its output. -/
theorem dns_question_loop_inl (mem : Nat → Nat) (qr : String) :
    ∀ n pos len out s, dns_question_loop mem qr n pos len out = Sum.inl s →
      ∃ a b, s = a ++ "\x22malformed\x22:" ++ b := by
  intro n
  induction n with
  | zero => intro pos len out s h; simp [dns_question_loop] at h
  | succ n ih =>
    intro pos len out s h
    simp only [dns_question_loop] at h
    split at h
    · simp only [Sum.inl.injEq] at h
      exact ⟨out, _, h.symm⟩
    · split at h
      · simp only [Sum.inl.injEq] at h
        exact ⟨out, _, h.symm⟩
      · exact ih _ _ _ _ h

/-- Every early return of a record-loop iteration carries the
malformed marker in its output. -/
theorem dns_rr_record_step_inl (mem : Nat → Nat) (st : DrvSt) (s : String) :
    dns_rr_record_step mem st = Sum.inl s →
      ∃ a b, s = a ++ "\x22malformed\x22:" ++ b := by
  intro h
  simp only [dns_rr_record_step] at h
  split at h
  · simp only [Sum.inl.injEq] at h
    exact ⟨_, _, h.symm⟩
  · split at h
    · simp only [Sum.inl.injEq] at h
      exact ⟨_, _, h.symm⟩
    · split at h
      · rw [Sum.inl.injEq] at h
        rw [← h]
        exact ⟨_, _, String.append_assoc _ _ _⟩
      · simp at h

/-- Every early return of a record section carries the malformed
marker in its output. -/
theorem dns_rr_section_inl (mem : Nat → Nat) :
    ∀ n st s, dns_rr_section mem n st = Sum.inl s →
      ∃ a b, s = a ++ "\x22malformed\x22:" ++ b := by
  intro n
  induction n with
  | zero => intro st s h; simp [dns_rr_section] at h
  | succ n ih =>
    intro st s h
    simp only [dns_rr_section] at h
    cases hstep : dns_rr_record_step mem st with
    | inl s2 =>
      rw [hstep] at h
      simp only [Sum.inl.injEq] at h
      subst h
      exact dns_rr_record_step_inl mem st _ hstep
    | inr st2 =>
      rw [hstep] at h
      exact ih _ _ h

/-- Jump bound for the plain wrapper at depth 0. -/
theorem dns_header_parse_name_jumps_le (mem : Nat → Nat) (npos : Nat) (len : Int)
    (outStart outLen : Nat) :
    (dns_header_parse_name mem npos len outStart outLen 0).jumps ≤ 20 := by
  obtain ⟨r, hr, he⟩ := dns_header_parse_name_eq mem npos len outStart outLen 0
  rw [he]
  have h := nameGo_jumps false mem _ _ _ hr
  simp only [nmDepth] at h
  omega

/-- Jump bound for the MX wrapper at depth 0. -/
theorem dns_header_parse_mxname_jumps_le (mem : Nat → Nat) (npos : Nat) (len : Int)
    (outStart outLen : Nat) :
    (dns_header_parse_mxname mem npos len outStart outLen 0).jumps ≤ 20 := by
  obtain ⟨r, hr, he⟩ := dns_header_parse_mxname_eq mem npos len outStart outLen 0
  rw [he]
  have h := nameGo_jumps true mem _ _ _ hr
  simp only [nmDepth] at h
  omega

/-- Output-shape lemma for the driver: every result either is the
complete document (ending in the close of the record array and the
document) or contains the malformed marker. -/
theorem dns_print_packet_shape (mem : Nat → Nat) (plen : Int) :
    (∃ a, dns_print_packet mem plen = a ++ "]\x7d") ∨
    (∃ a b, dns_print_packet mem plen = a ++ "\x22malformed\x22:" ++ b) := by
  simp only [dns_print_packet]
  split
  · right; exact ⟨_, _, rfl⟩
  · split
    · right; exact ⟨_, _, rfl⟩
    · split
      · rename_i s hq
        right
        exact dns_question_loop_inl _ _ _ _ _ _ _ hq
      · rename_i p hq
        split
        · rename_i s hs
          right
          exact dns_rr_section_inl _ _ _ _ hs
        · rename_i st1 hs1
          split
          · rename_i s hs
            right
            exact dns_rr_section_inl _ _ _ _ hs
          · rename_i st2 hs2
            split
            · rename_i s hs
              right
              exact dns_rr_section_inl _ _ _ _ hs
            · rename_i st3 hs3
              left
              exact ⟨st3.out, rfl⟩

set_option maxRecDepth 1000000

set_option maxHeartbeats 1000000

/-- C1: the claim states the name decoders never append more than
`max_output_bytes` bytes and fail `Unterminated` before writing past
the capacity.  The code checks `outname < terminus` only between
labels, so a single label can run up to 63 bytes past the budget: on
a name of labels of lengths 63, 63, 63, 61, 63 (no terminator), the
plain decoder invoked with output budget 255 performs 319 buffer
writes, the last at offset 317, before returning `Unterminated`.
In C this overruns the 256-byte `name` buffer itself by 62 bytes. -/
theorem c1_name_decoder_overruns_output_budget :
    (dns_header_parse_name memOvf 0 400 0 255 0).err = dns_err_unterminated ∧
    (dns_header_parse_name memOvf 0 400 0 255 0).writes.length = 319 ∧
    ((dns_header_parse_name memOvf 0 400 0 255 0).writes.map Prod.fst).maximum =
      some 317 := by
  decide

/-- C2: name decoding terminates for every input (the fuel bound
`nmF` always suffices for both variants, over all memories, cursor
positions, lengths, output budgets and depths); the number of pointer
jumps from depth 0 is at most 20 for every input; on an input that is
a cyclic compression pointer the decode fails `OffsetTooLong` after
exactly 20 jumps (the 21st jump is refused); and a chain of exactly
20 jumps ending in a well-formed name succeeds with 20 jumps. -/
theorem c2_name_decoding_terminates_with_jump_bound :
    (∀ (mem : Nat → Nat) (npos : Nat) (len : Int) (outStart outLen depth : Nat),
      (nameGo false mem (nmF (NmK.enter npos len outStart outLen depth) + 1)
        (NmK.enter npos len outStart outLen depth)).isSome ∧
      (nameGo true mem (nmF (NmK.enter npos len outStart outLen depth) + 1)
        (NmK.enter npos len outStart outLen depth)).isSome) ∧
    (∀ (mem : Nat → Nat) (npos : Nat) (len : Int) (outStart outLen : Nat),
      (dns_header_parse_name mem npos len outStart outLen 0).jumps ≤ 20 ∧
      (dns_header_parse_mxname mem npos len outStart outLen 0).jumps ≤ 20) ∧
    ((dns_header_parse_name memCyc 0 500 0 255 0).err = dns_err_offset_too_long ∧
      (dns_header_parse_name memCyc 0 500 0 255 0).jumps = 20) ∧
    ((dns_header_parse_name memChain 0 500 0 255 0).err = dns_ok ∧
      (dns_header_parse_name memChain 0 500 0 255 0).jumps = 20) := by
  refine ⟨fun mem npos len outStart outLen depth => ⟨?_, ?_⟩,
    fun mem npos len outStart outLen =>
      ⟨dns_header_parse_name_jumps_le mem npos len outStart outLen,
       dns_header_parse_mxname_jumps_le mem npos len outStart outLen⟩,
    by decide, by decide⟩
  · exact nameGo_total false mem _ _ trivial (Nat.lt_succ_self _)
  · exact nameGo_total true mem _ _ trivial (Nat.lt_succ_self _)

/-- C3: the claim states the remaining-length counter never becomes
negative and no read passes the declared remaining length, in
particular in the MX preference skip.  The skip `c += 2; *len -= 2`
is unchecked: invoked on an MX rdata with remaining length 1 whose
first byte is a label tag, the decoder leaves the by-reference length
at -1 (and the post-skip length check reads the byte two past the
declared window). -/
theorem c3_mx_preference_skip_drives_len_negative :
    (dns_header_parse_mxname memZero 0 1 0 255 0).err = dns_err_label_too_long ∧
    (dns_header_parse_mxname memZero 0 1 0 255 0).len = -1 := by
  decide

/-- C4: the claim states that after a successful payload dispatch the
cursor is exactly at the end of the declared rdlength region.  For an
IN TXT record the dispatcher consumes nothing and leaves the
rdlength variable untouched, so the caller fixup advances only
`rdlength - 1` bytes: with `rdlength = 1` and payload start 100 the
cursor stays at 100 instead of 101, one byte short of the region
end, so the next record is parsed one byte early. -/
theorem c4_txt_record_cursor_left_short_of_rdlength_end :
    (rdata_dispatch_advance memZero ⟨16, 1, 0, 1⟩ 100 50 1).err = dns_ok ∧
    (rdata_dispatch_advance memZero ⟨16, 1, 0, 1⟩ 100 50 1).pos = 100 ∧
    (rdata_dispatch_advance memZero ⟨16, 1, 0, 1⟩ 100 50 1).pos ≠ 100 + 1 := by
  decide

/-- C5: the claim states the MX decoder skips the 2-byte preference
once, on the outermost invocation only, before interpreting the first
payload byte as a label/pointer tag.  In the code the skip sits
inside the label branch, dispatched on the tag of the first
preference byte, and the post-skip byte is never re-dispatched: on
the MX rdata `00 0A C0 0C` (preference 10, then a pointer to a
well-formed name that the plain decoder renders as the single
character name), the pointer byte `C0` read through a signed char
passes the `*c < 64` test and is misparsed as a 192-byte label, so
the decode returns `Unterminated` with zero jumps instead of
following the pointer.  Moreover the flag is local to each
invocation: when the preference bytes are themselves `C0 0C`, the
decoder treats them as a pointer (no skip) and the fresh recursive
call at the jump target skips 2 further bytes, destroying the
well-formed target name (the rendered name is empty, not the
single-character name). -/
theorem c5_mx_preference_handling_misparses_pointer :
    ((dns_header_parse_mxname memMxPtr 0 4 0 255 0).err = dns_err_unterminated ∧
      (dns_header_parse_mxname memMxPtr 0 4 0 255 0).jumps = 0 ∧
      renderName (dns_header_parse_name memMxPtr 12 10 0 255 0).writes = "a") ∧
    ((dns_header_parse_mxname memMxPref 0 30 0 255 0).err = dns_ok ∧
      (dns_header_parse_mxname memMxPref 0 30 0 255 0).jumps = 1 ∧
      renderName (dns_header_parse_mxname memMxPref 0 30 0 255 0).writes = "" ∧
      renderName (dns_header_parse_name memMxPref 12 18 0 255 0).writes = "a") := by
  decide

/-- C6 (counterexample): zero-length input produces the output text
consisting of an open brace and the malformed marker with no closing
brace, which is not syntactically well-formed. -/
theorem c6_zero_length_output_not_wellformed :
    dns_print_packet memZero 0 = "\x7b\x22malformed\x22:0" ∧
    jsonBalanced (dns_print_packet memZero 0) = false := by
  constructor
  · rfl
  · decide

/-- C6 (amended): for every input memory and length the driver
terminates and returns either a complete document (ending with the
close of the record array and of the document) or output containing
the malformed marker; the malformed output may be structurally
unclosed. -/
theorem c6_output_full_document_or_malformed_marker (mem : Nat → Nat) (plen : Int) :
    (∃ a, dns_print_packet mem plen = a ++ "]\x7d") ∨
    (∃ a b, dns_print_packet mem plen = a ++ "\x22malformed\x22:" ++ b) :=
  dns_print_packet_shape mem plen

/-- C7: whenever the payload dispatcher returns an error for a record
(any record has `len ≤ 65535`, since `rdlength` is a 16-bit field),
it has emitted no output fragment. -/
theorem c7_rdata_print_error_implies_no_output (mem : Nat → Nat) (rr : RrParsed)
    (pos : Nat) (len : Int) (hlen : len ≤ 65535)
    (herr : (dns_rdata_print mem rr pos len).err ≠ dns_ok) :
    (dns_rdata_print mem rr pos len).frag = "" := by
  have key : (dns_rdata_print mem rr pos len).err = dns_ok ∨
      (dns_rdata_print mem rr pos len).frag = "" := by
    unfold dns_rdata_print
    dsimp only []
    set nres := (if rr.rtype = 15 then
        dns_header_parse_mxname mem pos len 0 (DNS_OUTNAME_LEN - 1) 0
      else dns_header_parse_name mem pos len 0 (DNS_OUTNAME_LEN - 1) 0) with hn
    have hle : nres.len ≤ len := by
      rw [hn]
      split
      · exact dns_header_parse_mxname_len_le mem pos len 0 (DNS_OUTNAME_LEN - 1) 0
      · exact dns_header_parse_name_len_le mem pos len 0 (DNS_OUTNAME_LEN - 1) 0
    clear_value nres
    clear hn herr
    split
    · split
      · split
        · right; rfl
        · left; rfl
      · split
        · split
          · right; rfl
          · left; rfl
        · split
          · split
            · right; rfl
            · split
              · split
                · -- the post-name advance cannot fail for a 16-bit length
                  rename_i hpos hadv
                  exfalso
                  revert hadv
                  simp only [data_advance, M32]
                  intro hadv
                  split at hadv
                  · omega
                  · exact hadv rfl
                · left; rfl
              · left; rfl
          · split
            · left; rfl
            · split
              · right; rfl
              · left; rfl
    · split
      · right; rfl
      · left; rfl
  rcases key with h | h
  · exact absurd h herr
  · exact h

/-- C7 witness: an IN A record with declared rdlength 6 fails
`BadRdlength` and emits nothing. -/
theorem c7_rdata_print_error_implies_no_output_witness :
    (dns_rdata_print memZero ⟨1, 1, 0, 6⟩ 0 16).frag = "" :=
  c7_rdata_print_error_implies_no_output memZero ⟨1, 1, 0, 6⟩ 0 16
    (by decide) (by decide)

/-- C8 (counterexample): with 12 message bytes remaining and a
declared rdlength of 11 the record parser succeeds, although only 2
bytes remain after the 10 fixed header fields are accounted for; the
claim would require `RdataTooLong` here. -/
theorem c8_rdlength_check_ignores_fixed_header_bytes :
    (dns_rr_parse memRr11 0 12 0).err = dns_ok ∧
    (12 : Int) - 10 < (be16 memRr11 8 : Int) := by
  decide

/-- C8 (amended): for at least 10 remaining bytes, `dns_rr_parse`
reads type, class, ttl and rdlength from the 10 fixed header bytes
and fails `RdataTooLong` exactly when the declared rdlength exceeds
the remaining message bytes measured before those fixed fields are
consumed; otherwise it succeeds, advancing by 10. -/
theorem c8_rr_parse_rdlength_check_characterization (mem : Nat → Nat) (pos : Nat)
    (len : Int) (rdl0 : Int) (hlen : 10 ≤ len) :
    ((dns_rr_parse mem pos len rdl0).err = dns_err_rdata_too_long ↔
      len < (be16 mem (pos + 8) : Int)) ∧
    (¬ len < (be16 mem (pos + 8) : Int) →
      dns_rr_parse mem pos len rdl0 =
        ⟨dns_ok, ⟨be16 mem pos, be16 mem (pos + 2), be32 mem (pos + 4), be16 mem (pos + 8)⟩,
          pos + 10, len - 10, (be16 mem (pos + 8) : Int)⟩) := by
  simp only [dns_rr_parse]
  rw [if_neg (by omega)]
  constructor
  · split
    · rename_i hlt
      simp [hlt]
    · rename_i hge
      simp only []
      constructor
      · intro h
        exact absurd h (by decide)
      · intro h
        exact absurd h hge
  · intro hge
    rw [if_neg hge]

/-- C8 witness: 12 remaining bytes against a declared rdlength of 13
yields `RdataTooLong`. -/
theorem c8_rr_parse_rdlength_check_characterization_witness :
    (dns_rr_parse memRr13 0 12 0).err = dns_err_rdata_too_long :=
  ((c8_rr_parse_rdlength_check_characterization memRr13 0 12 0 (by decide)).1).mpr
    (by decide)

/-- C9 (counterexample): a first byte of 64 (wire tag bits `01`)
makes the plain decoder fail `LabelMalformed`, not `LabelTooLong` as
the claim states. -/
theorem c9_byte64_yields_label_malformed_not_too_long :
    (dns_header_parse_name memLabel64 0 100 0 255 0).err = dns_err_label_malformed ∧
    (dns_header_parse_name memLabel64 0 100 0 255 0).err ≠ dns_err_label_too_long := by
  decide

/-- C9 (amended): a label length byte of 63 with sufficient remaining
bytes is accepted (the decode succeeds), while the byte 64 fails with
`LabelMalformed` (its tag bits are `01`, so it is not a label at
all). -/
theorem c9_label63_accepted_label64_malformed :
    (dns_header_parse_name memLabel63 0 100 0 255 0).err = dns_ok ∧
    (dns_header_parse_name memLabel64 0 100 0 255 0).err = dns_err_label_malformed := by
  decide

/-- C10: for every IN-class TXT record, the payload dispatcher
returns success, leaves the cursor and remaining length untouched,
and emits exactly the fixed placeholder fragment. -/
theorem c10_txt_dispatch_fixed_fragment_no_consumption (mem : Nat → Nat)
    (ttl rdlen pos : Nat) (len : Int) :
    dns_rdata_print mem ⟨16, 1, ttl, rdlen⟩ pos len =
      ⟨dns_ok, pos, len, "\x22txt\x22:\x22NYI\x22"⟩ := by
  rfl
